import Mathlib

/-!
Verification of the spongebob-frontend automation core against its
natural-language specification.

The definitions below are a shallow embedding of the JavaScript source:

  * `src/utils/crypto.js`   — `encrypt` (field-level encryption with its
    documented plaintext fallbacks) and the `TestnetExecutor` (the task
    execution engine; the two live in the same source file).
  * `src/utils/db.js`       — `importData` (bulk restore).
  * `src/modules/walletManager.js` — wallet generation and persistence.
  * `src/modules/cascadeFunding.js` — forward / reverse fund cascades.

Randomness (`Math.random()`), cooperative cancellation (`stop()` flipping
`isRunning` between suspension points) and the wall clock are modelled as
oracles: an environment supplies a stream `rand : Nat → Rat` of draws
(read through a counter threaded through the state, one increment per
`Math.random()` call in the source), a stream `stop : Nat → Bool` of
cancellation signals (read at each `if (!this.isRunning)` poll), a fixed
`now` timestamp, and an opaque cipher for AES-GCM.  JavaScript numbers
are modelled as exact rationals; `toFixed(6)` is modelled exactly
(round half away from zero at six decimals, which on the values reached
here coincides with the ECMAScript definition); the 32-bit signed
wrap-around of `_simpleHash` is modelled with explicit `% 2^32`.
-/

/-- One wallet record, as produced by `_generateEVMWallet` /
`_generateSolanaWallet` in `walletManager.js`.  `balance` is the decimal
string field, modelled as an exact rational. -/
structure Wallet where
  index : Nat
  chainType : String
  address : String
  privateKey : String
  mnemonic : String
  timestamp : Nat
  balance : Rat
  completed : List String
deriving Repr, DecidableEq

/-- Environment for the symmetric field encryption of `crypto.js`:
`ok` tells whether the Web-Crypto operation succeeds (the source wraps it
in try/catch), `cipher` is the base64(iv ++ AES-GCM ciphertext) encoding
produced on success, left opaque. -/
structure CryptoEnv where
  ok : Bool
  cipher : String → String

/-- `encrypt` from `src/utils/crypto.js`: empty (falsy) data is returned
unchanged; on success the ciphertext encoding is returned; on an
encryption error the catch branch returns the data unchanged (the
source comments this branch with "Fallback to unencrypted"). -/
def encrypt (cenv : CryptoEnv) (data : String) : String :=
  if data = "" then data
  else if cenv.ok then cenv.cipher data
  else data

/-- The per-record encryption step of `WalletManager.saveWallets`:
spread the record and replace `privateKey` and `mnemonic` by their
encrypted forms. -/
def encryptRecord (cenv : CryptoEnv) (w : Wallet) : Wallet :=
  { w with privateKey := encrypt cenv w.privateKey,
           mnemonic := encrypt cenv w.mnemonic }

/-- `WalletManager.saveWallets` (`walletManager.js` lines 173-193):
clear the object store, then add the encrypted copy of every in-memory
wallet; the resulting persisted contents are exactly the encrypted
records, in order. -/
def saveWallets (cenv : CryptoEnv) (ws : List Wallet) : List Wallet :=
  ws.map (encryptRecord cenv)

/-! ## `src/utils/db.js` — bulk restore -/

/-- The backup document `{ version, timestamp, data }` of
`exportAllData` / `importData`.  `data` is an association list from
store name to the list of items of that collection (items are left as
opaque strings); a document whose `data` field is absent has `data :=
none`. -/
structure BackupDoc where
  version : Nat
  timestamp : Nat
  data : Option (List (String × List String))
deriving Repr, DecidableEq

/-- The loop body of `importData`: for each `[storeName, items]` entry
of the document, if `items.length > 0` clear the collection and add the
listed items, otherwise leave the collection untouched. -/
def applyImport (db : String → List String) :
    List (String × List String) → (String → List String)
  | [] => db
  | (name, items) :: rest =>
      applyImport (if items.length > 0 then Function.update db name items else db) rest

/-- `importData` from `src/utils/db.js` lines 138-161: reject a missing
document or a document without a `data` field, otherwise fold the
per-collection replacement over the document entries.  The persistent
store is modelled as the map from store name to collection contents. -/
def importData (doc : Option BackupDoc) (db : String → List String) :
    Except String (String → List String) :=
  match doc with
  | none => .error "Invalid import data"
  | some d =>
      match d.data with
      | none => .error "Invalid import data"
      | some entries => .ok (applyImport db entries)

/-! ## `src/modules/walletManager.js` — identity generation -/

/-- Randomness / clock environment for wallet generation: `rand k` is
the value of the k-th `Math.random()` call, `now` the value of
`Date.now()`. -/
structure GenEnv where
  rand : Nat → Rat
  now : Nat

/-- An environment is valid when every draw lies in `[0, 1)`, as
`Math.random()` guarantees. -/
def GenEnv.Valid (env : GenEnv) : Prop :=
  ∀ k, 0 ≤ env.rand k ∧ env.rand k < 1

/-- `Math.floor(q * n)` as a natural-number list index. -/
def randIdx (q : Rat) (n : Nat) : Nat :=
  (Int.floor (q * n)).toNat

/-- The character table of `_generateRandomHex`. -/
def hexChars : List Char := "0123456789abcdef".toList

/-- `_generateRandomHex(length)`: draw one random hex character per
position.  The second component is the advanced draw counter. -/
def generateRandomHex (env : GenEnv) : Nat → Nat → String × Nat
  | 0, k => ("", k)
  | l + 1, k =>
      let c := hexChars.getD (randIdx (env.rand k) 16) '0'
      let (rest, k1) := generateRandomHex env l (k + 1)
      (String.mk [c] ++ rest, k1)

/-- The 16-word table of `_generateMnemonic`. -/
def mnemonicWords : List String :=
  ["abandon", "ability", "able", "about", "above", "absent", "absorb", "abstract",
   "absurd", "abuse", "access", "accident", "account", "accuse", "achieve", "acid"]

/-- The word-drawing loop of `_generateMnemonic`. -/
def drawWords (env : GenEnv) : Nat → Nat → List String × Nat
  | 0, k => ([], k)
  | l + 1, k =>
      let w := mnemonicWords.getD (randIdx (env.rand k) 16) "abandon"
      let (rest, k1) := drawWords env l (k + 1)
      (w :: rest, k1)

/-- `_generateMnemonic`: twelve uniform draws from the word table,
joined with single spaces. -/
def generateMnemonic (env : GenEnv) (k : Nat) : String × Nat :=
  let (ws, k1) := drawWords env 12 k
  (String.intercalate " " ws, k1)

/-- Two's-complement 32-bit wrap-around, the effect of JavaScript
`x & x` (and of `<<` on its result). -/
def int32 (n : Int) : Int :=
  (n + 2 ^ 31) % 2 ^ 32 - 2 ^ 31

/-- Left-pad with zeros to 64 characters (`padStart(64, '0')`). -/
def padStart64 (s : String) : String :=
  String.mk (List.replicate (64 - s.length) '0') ++ s

/-- `_simpleHash`: the 32-bit string hash
`hash = ((hash << 5) - hash) + charCode; hash = hash & hash`, then
`Math.abs(hash).toString(16).padStart(64, '0')`. -/
def simpleHash (input : String) : String :=
  let h := input.toList.foldl (fun h c => int32 (int32 (h * 32) - h + c.toNat)) 0
  padStart64 (Nat.toDigits 16 h.natAbs).asString

/-- `_privateKeyToAddress`: `'0x' + simpleHash(pk).substring(0, 40)`. -/
def privateKeyToAddress (pk : String) : String :=
  "0x" ++ (simpleHash pk).take 40

/-- Value of a hexadecimal digit character. -/
def hexVal (c : Char) : Nat :=
  if c.toNat ≥ 97 then c.toNat - 87 else c.toNat - 48

/-- `BigInt('0x' + hex)` for a hex string. -/
def hexToNat (s : String) : Nat :=
  s.toList.foldl (fun acc c => acc * 16 + hexVal c) 0

/-- The base-58 alphabet of `_base58Encode`. -/
def b58Alphabet : List Char :=
  "123456789ABCDEFGHJKLMNPQRSTUVWXYZabcdefghijkmnopqrstuvwxyz".toList

/-- The division loop of `_base58Encode`, most significant digit
first (each iteration of the source prepends the current remainder). -/
def base58Digits (n : Nat) : List Char :=
  if h : n = 0 then []
  else base58Digits (n / 58) ++ [b58Alphabet.getD (n % 58) '1']
termination_by n
decreasing_by exact Nat.div_lt_self (Nat.pos_of_ne_zero h) (by norm_num)

/-- `_base58Encode(hex)`: repeated division of `BigInt('0x'+hex)` by
58; the empty result (input 0) falls back to `"1"`. -/
def base58Encode (hex : String) : String :=
  let ds := base58Digits (hexToNat hex)
  if ds = [] then "1" else String.mk ds

/-- `_generateSolanaAddress`: base-58 encode the first 64 hex
characters of the simple hash of the private key. -/
def generateSolanaAddress (pk : String) : String :=
  base58Encode ((simpleHash pk).take 64)

/-- `_generateSingleWallet` (dispatching to `_generateEVMWallet` /
`_generateSolanaWallet`): draw a 64-hex-character private key and a
12-word mnemonic, derive the chain-specific address, and build the
record; any other chain type throws. -/
def generateSingleWallet (env : GenEnv) (chainType : String) (index k : Nat) :
    Except String (Wallet × Nat) :=
  if chainType = "evm" then
    let (pk, k1) := generateRandomHex env 64 k
    let (mn, k2) := generateMnemonic env k1
    .ok ({ index := index, chainType := "evm",
           address := privateKeyToAddress pk, privateKey := pk,
           mnemonic := mn, timestamp := env.now, balance := 0,
           completed := [] }, k2)
  else if chainType = "solana" then
    let (pk, k1) := generateRandomHex env 64 k
    let (mn, k2) := generateMnemonic env k1
    .ok ({ index := index, chainType := "solana",
           address := generateSolanaAddress pk, privateKey := pk,
           mnemonic := mn, timestamp := env.now, balance := 0,
           completed := [] }, k2)
  else .error "Unsupported chain type"

/-- `_generateBatch(count, chainType, startIndex)`: `count` wallets
with consecutive indices from `start`. -/
def generateBatch (env : GenEnv) (chainType : String) :
    Nat → Nat → Nat → Except String (List Wallet × Nat)
  | 0, _, k => .ok ([], k)
  | c + 1, start, k =>
      match generateSingleWallet env chainType start k with
      | .error e => .error e
      | .ok (w, k1) =>
          match generateBatch env chainType c (start + 1) k1 with
          | .error e => .error e
          | .ok (ws, k2) => .ok (w :: ws, k2)

/-- The batching loop of `generateWallets`: `for (i = 0; i < count;
i += batchSize)` with `batch = min(batchSize, count - i)` and
`batchSize = 100`; the per-batch progress report and the 10 ms yield
have no effect on the data and are not modelled.  The first argument
is structural-recursion fuel bounding the number of remaining batches,
a pure termination artifact: the caller passes `count`, which always
suffices because every executed batch covers at least one wallet. -/
def genLoop (env : GenEnv) (chainType : String) (count : Nat) :
    Nat → Nat → Nat → Except String (List Wallet × Nat)
  | 0, _, k => .ok ([], k)
  | fuel + 1, i, k =>
      if i < count then
        match generateBatch env chainType (min 100 (count - i)) i k with
        | .error e => .error e
        | .ok (bw, k1) =>
            match genLoop env chainType count fuel (i + 100) k1 with
            | .error e => .error e
            | .ok (ws, k2) => .ok (bw ++ ws, k2)
      else .ok ([], k)

/-- The wallet-manager state: the in-memory `this.wallets`, the
persisted object-store contents, and the draw counter of the modelled
randomness stream. -/
structure WMState where
  wallets : List Wallet
  store : List Wallet
  rng : Nat
deriving Repr, DecidableEq

/-- `WalletManager.generateWallets(count, chainType)`
(`walletManager.js` lines 19-44): validate the count, generate in
batches of 100, append the new records to `this.wallets`, persist the
whole set through `saveWallets` (which encrypts the two sensitive
fields per record), and return the new records.  A thrown error leaves
the state untouched. -/
def generateWallets (env : GenEnv) (cenv : CryptoEnv) (count : Nat)
    (chainType : String) (st : WMState) : WMState × Except String (List Wallet) :=
  if count < 1 ∨ count > 20000 then
    (st, .error "Wallet count must be between 1 and 20,000")
  else
    match genLoop env chainType count count 0 st.rng with
    | .error e => (st, .error e)
    | .ok (nw, k) =>
        let ws := st.wallets ++ nw
        ({ wallets := ws, store := saveWallets cenv ws, rng := k }, .ok nw)

/-- `WalletManager.markTestnetCompleted(walletIndex, testnetName)`:
find the first wallet whose `index` field matches, and append the
testnet name to its `completed` list unless already present. -/
def markTestnetCompleted (walletIndex : Nat) (name : String) :
    List Wallet → List Wallet
  | [] => []
  | w :: ws =>
      if w.index = walletIndex then
        (if name ∈ w.completed then w
         else { w with completed := w.completed ++ [name] }) :: ws
      else w :: markTestnetCompleted walletIndex name ws

/-! ## `src/utils/crypto.js` — the `TestnetExecutor` task execution engine

The executor walks networks × wallets × tasks.  Wallet identity is by
object reference in the source (`shuffleArray([...wallets])` copies the
array but keeps the references); here the traversal is over *positions*
into the single wallet list held in the state, which is the same
sharing discipline.  `stats.skipped` is a ghost counter that does not
exist in the source: it counts the already-completed wallets that take
the `continue` branch (which increments only `stats.completed`), and is
used solely to state invariants. -/

/-- A network descriptor as consumed by the executor: only `name` and
`tasks` are read (`testnet.tasks || ['custom']`); `tasks := none`
models an absent / falsy `tasks` field. -/
structure Testnet where
  name : String
  chain : String
  tasks : Option (List String)
deriving Repr, DecidableEq

/-- The run-scoped counters of the executor, plus the ghost `skipped`. -/
structure Stats where
  totalTasks : Nat
  completed : Nat
  successful : Nat
  failed : Nat
  skipped : Nat
deriving Repr, DecidableEq

/-- The executor configuration options read from `config`. -/
structure ExecConfig where
  randomizeOrder : Bool
  randomizeGas : Bool
  walletDelay : Nat
  testnetDelay : Nat
deriving Repr, DecidableEq

/-- Oracle environment shared by the executor and the cascade pipeline:
`rand k` is the k-th `Math.random()` draw, `stop t` tells whether
`stop()` has been called by the time of the t-th cancellation poll. -/
structure SimEnv where
  rand : Nat → Rat
  stop : Nat → Bool

/-- Executor state: the shared wallet list, the live statistics, the
`isRunning` flag, and the two oracle counters. -/
structure ExecState where
  wallets : List Wallet
  stats : Stats
  isRunning : Bool
  rng : Nat
  polls : Nat
deriving Repr, DecidableEq

/-- Consume one `Math.random()` draw. -/
def draw (env : SimEnv) (st : ExecState) : Rat × ExecState :=
  (env.rand st.rng, { st with rng := st.rng + 1 })

/-- One `if (!this.isRunning)` poll: the flag may have been cleared by
a `stop()` call since the last suspension point. -/
def poll (env : SimEnv) (st : ExecState) : Bool × ExecState :=
  let r := st.isRunning && !env.stop st.polls
  (r, { st with isRunning := r, polls := st.polls + 1 })

/-- Total position swap on a list; out-of-range indices leave the list
unchanged.  `shuffleArray`'s destructuring swap on valid indices. -/
def swapIdx (l : List α) (i j : Nat) : List α :=
  match l.get? i, l.get? j with
  | some a, some b => (l.set i b).set j a
  | _, _ => l

/-- The Fisher-Yates loop of `shuffleArray`: for JavaScript index
`i = n-1 … 1`, draw `j = Math.floor(Math.random() * (i + 1))` and swap.
The argument is the current JavaScript `i`. -/
def shuffleGo (env : SimEnv) (l : List α) : Nat → ExecState → List α × ExecState
  | 0, st => (l, st)
  | i + 1, st =>
      let (r, st1) := draw env st
      shuffleGo env (swapIdx l (i + 1) (randIdx r (i + 2))) i st1

/-- `shuffleArray` from `src/utils/helpers.js`: copy, then Fisher-Yates
from the last index down. -/
def shuffleArray (env : SimEnv) (l : List α) (st : ExecState) : List α × ExecState :=
  shuffleGo env l (l.length - 1) st

/-- Per-task success thresholds: `executeTask` succeeds when
`Math.random() > threshold`.  `faucet` 0.1, `swap` 0.15, `bridge` 0.1,
`nft_mint` 0.1, `stake` 0.15, `custom` 0.2. -/
def taskThreshold (task : String) : Rat :=
  if task = "swap" ∨ task = "stake" then 3 / 20
  else if task = "custom" then 1 / 5
  else 1 / 10

/-- The per-task error message thrown on an unlucky draw. -/
def taskError (task : String) : String :=
  if task = "faucet" then "Faucet claim failed"
  else if task = "swap" then "Swap failed"
  else if task = "bridge" then "Bridge failed"
  else if task = "nft_mint" then "NFT mint failed"
  else if task = "stake" then "Stake failed"
  else "Custom task failed"

/-- `executeTask(taskType, …)`: each known task kind consumes its
extra draw when configured (`randomizeGas` amount for `swap`/`bridge`,
`randomizeOrder` mint count for `nft_mint`), then the
`simulateTransaction` delay draw, then the outcome draw; an unknown
kind only logs a warning and performs no draw.  The task body never
touches the wallet list or the statistics. -/
def executeTask (env : SimEnv) (cfg : ExecConfig) (task : String) (st : ExecState) :
    ExecState × Except String Unit :=
  if task = "faucet" ∨ task = "swap" ∨ task = "bridge" ∨
      task = "nft_mint" ∨ task = "stake" ∨ task = "custom" then
    let st1 :=
      if (task = "swap" ∨ task = "bridge") ∧ cfg.randomizeGas then (draw env st).2
      else if task = "nft_mint" ∧ cfg.randomizeOrder then (draw env st).2
      else st
    let st2 := (draw env st1).2
    let (r, st3) := draw env st2
    if r > taskThreshold task then (st3, .ok ())
    else (st3, .error (taskError task))
  else (st, .ok ())

/-- `executeWalletTasks`: run the network's task list sequentially,
polling the cancellation flag before each task (a cleared flag breaks
the loop and the function returns *normally*), with a
`randomDelay(1000, 3000)` draw after each successful task; the first
task error propagates. -/
def executeWalletTasks (env : SimEnv) (cfg : ExecConfig) :
    List String → ExecState → ExecState × Except String Unit
  | [], st => (st, .ok ())
  | t :: rest, st =>
      let (running, st0) := poll env st
      if running then
        match executeTask env cfg t st0 with
        | (st1, .error e) => (st1, .error e)
        | (st1, .ok _) => executeWalletTasks env cfg rest (draw env st1).2
      else (st0, .ok ())

/-- The `walletDelay` pause at the end of a non-skipped wallet
iteration: `if (config.walletDelay && this.isRunning) await
randomDelay(config.walletDelay * 1000)` — one draw when taken. -/
def walletPause (env : SimEnv) (cfg : ExecConfig) (st2 : ExecState) : ExecState :=
  if cfg.walletDelay ≠ 0 ∧ st2.isRunning then (draw env st2).2 else st2

/-- One iteration body of the wallet loop of `executeTestnet`, for the
wallet at position `p` of the shared list: skip (counting `completed`
and the ghost `skipped`) when the wallet already lists the network
name; otherwise run the tasks, on success mark completion (by `index`
field, through the persistence path) and count `successful`, on error
count `failed`; either way count `completed`, then take the optional
`walletDelay` draw (the skip branch `continue`s past it). -/
def execWalletUnit (env : SimEnv) (cfg : ExecConfig) (tn : Testnet) (p : Nat)
    (st : ExecState) : ExecState :=
  match st.wallets.get? p with
  | none => st
  | some w =>
      if tn.name ∈ w.completed then
        { st with stats := { st.stats with
            completed := st.stats.completed + 1,
            skipped := st.stats.skipped + 1 } }
      else
        let st2 :=
          match executeWalletTasks env cfg (tn.tasks.getD ["custom"]) st with
          | (st1, .ok _) =>
              { st1 with
                wallets := markTestnetCompleted w.index tn.name st1.wallets,
                stats := { st1.stats with
                  successful := st1.stats.successful + 1,
                  completed := st1.stats.completed + 1 } }
          | (st1, .error _) =>
              { st1 with stats := { st1.stats with
                  failed := st1.stats.failed + 1,
                  completed := st1.stats.completed + 1 } }
        walletPause env cfg st2

/-- The wallet loop of `executeTestnet`, over the (possibly shuffled)
positions; polls cancellation before each wallet.  Returns the final
state and the trace of statistics observed at the suspension point
after each processed wallet. -/
def execWalletLoop (env : SimEnv) (cfg : ExecConfig) (tn : Testnet) :
    List Nat → ExecState → ExecState × List Stats
  | [], st => (st, [])
  | p :: rest, st =>
      let (running, st0) := poll env st
      if running then
        let st1 := execWalletUnit env cfg tn p st0
        let (st2, tr) := execWalletLoop env cfg tn rest st1
        (st2, st1.stats :: tr)
      else (st0, [])

/-- `executeTestnet(testnet, wallets, config)`: optionally shuffle the
wallet order, then run the wallet loop. -/
def executeTestnet (env : SimEnv) (cfg : ExecConfig) (tn : Testnet)
    (st : ExecState) : ExecState × List Stats :=
  let ps := List.range st.wallets.length
  let (ordered, st1) :=
    if cfg.randomizeOrder then shuffleArray env ps st else (ps, st)
  execWalletLoop env cfg tn ordered st1

/-- The network loop of `executeAll`: poll cancellation before each
network, run `executeTestnet`, then take the optional `testnetDelay`
draw when still running. -/
def execTestnetLoop (env : SimEnv) (cfg : ExecConfig) :
    List Testnet → ExecState → ExecState × List Stats
  | [], st => (st, [])
  | tn :: rest, st =>
      let (running, st0) := poll env st
      if running then
        let (st1, tr1) := executeTestnet env cfg tn st0
        let st2 :=
          if cfg.testnetDelay ≠ 0 ∧ st1.isRunning then (draw env st1).2 else st1
        let (st3, tr2) := execTestnetLoop env cfg rest st2
        (st3, tr1 ++ tr2)
      else (st0, [])

/-- `TestnetExecutor.executeAll(testnets, config)` (`crypto.js` lines
138-191 of the combined file): a re-entrant call is a warning no-op;
otherwise set `isRunning`, reset the statistics, fail fast on an empty
wallet or network set (caught by the surrounding try, leaving the reset
statistics in place), optionally shuffle the network order, set
`totalTasks = networks × wallets`, run the network loop, and finally
clear `isRunning`.  The returned trace lists the statistics at every
suspension point from the start of the traversal on. -/
def executeAll (env : SimEnv) (cfg : ExecConfig) (testnets : List Testnet)
    (st : ExecState) : ExecState × List Stats :=
  if st.isRunning then (st, [])
  else
    let st1 := { st with isRunning := true, stats := ⟨0, 0, 0, 0, 0⟩ }
    if st1.wallets.length = 0 then ({ st1 with isRunning := false }, [st1.stats])
    else if testnets.length = 0 then ({ st1 with isRunning := false }, [st1.stats])
    else
      let (ordered, st2) :=
        if cfg.randomizeOrder then shuffleArray env testnets st1 else (testnets, st1)
      let st3 := { st2 with stats := { st2.stats with
                     totalTasks := ordered.length * st2.wallets.length } }
      let (st4, tr) := execTestnetLoop env cfg ordered st3
      ({ st4 with isRunning := false }, st3.stats :: tr)

/-! ## `src/modules/cascadeFunding.js` — forward / reverse cascades -/

/-- Cascade pipeline state: the shared wallet list, the `isRunning`
flag, and the oracle counters. -/
structure CascadeState where
  wallets : List Wallet
  isRunning : Bool
  rng : Nat
  polls : Nat
deriving Repr, DecidableEq

/-- Consume one `Math.random()` draw (cascade pipeline). -/
def drawC (env : SimEnv) (st : CascadeState) : Rat × CascadeState :=
  (env.rand st.rng, { st with rng := st.rng + 1 })

/-- One cancellation poll (cascade pipeline). -/
def pollC (env : SimEnv) (st : CascadeState) : Bool × CascadeState :=
  let r := st.isRunning && !env.stop st.polls
  (r, { st with isRunning := r, polls := st.polls + 1 })

/-- JavaScript `x.toFixed(6)` read back as a number: round to the
nearest multiple of 10⁻⁶, ties toward positive infinity. -/
def toFixed6 (q : Rat) : Rat :=
  (Int.floor (q * 1000000 + 1 / 2) : Rat) / 1000000

/-- Replace the balance of the wallet at position `p`. -/
def setBalance (ws : List Wallet) (p : Nat) (b : Rat) : List Wallet :=
  match ws.get? p with
  | some w => ws.set p { w with balance := b }
  | none => ws

/-- `CascadeFunding.simulateFunding(fromWallet, toWallet, amount,
gasBuffer)` for the link from position `i` to position `i + 1`: the
transaction-delay draw, then the 10 % failure draw (`Math.random() <
0.1` throws "insufficient gas"); on success debit the source by
`amount` and credit the target by `amount - gasBuffer`, both re-read
through `toFixed(6)`. -/
def simulateFunding (env : SimEnv) (i : Nat) (amount gasBuffer : Rat)
    (st : CascadeState) : CascadeState × Except String Unit :=
  let st1 := (drawC env st).2
  let (r, st2) := drawC env st1
  if r < 1 / 10 then (st2, .error "Transaction failed: insufficient gas")
  else
    let fromBal := ((st2.wallets.get? i).map Wallet.balance).getD 0
    let toBal := ((st2.wallets.get? (i + 1)).map Wallet.balance).getD 0
    let ws1 := setBalance st2.wallets i (toFixed6 (fromBal - amount))
    let ws2 := setBalance ws1 (i + 1) (toFixed6 (toBal + (amount - gasBuffer)))
    ({ st2 with wallets := ws2 }, .ok ())

/-- `CascadeFunding.simulateReverseFunding(fromWallet, toAddress)` for
the wallet at position `i`: the transaction-delay draw, then the 5 %
failure draw (`Math.random() < 0.05` throws "network congestion");
then `amountToSend = max(0, balance - 0.001)`, which throws
"Insufficient balance to send" when not positive, and otherwise the
source balance is set to the 0.001 gas reserve (`toFixed(6)`). -/
def simulateReverseFunding (env : SimEnv) (i : Nat) (st : CascadeState) :
    CascadeState × Except String Unit :=
  let st1 := (drawC env st).2
  let (r, st2) := drawC env st1
  if r < 1 / 20 then (st2, .error "Transaction failed: network congestion")
  else
    let bal := ((st2.wallets.get? i).map Wallet.balance).getD 0
    let amountToSend := max 0 (bal - 1 / 1000)
    if amountToSend ≤ 0 then (st2, .error "Insufficient balance to send")
    else ({ st2 with wallets := setBalance st2.wallets i (toFixed6 (1 / 1000)) }, .ok ())

/-- The link loop of `fundForward` (`for i = 0; i < wallets.length - 1`):
the first argument is the current link `i`, the second the number of
remaining iterations `(wallets.length - 1) - i` (the loop bound, as
structural-recursion fuel).  Poll cancellation, attempt the link, on
success take the `randomDelay(2000, 8000)` draw and continue; a link
error re-throws and aborts the whole loop (the outer catch only
toasts).  Returns the final state and the list of attempted links. -/
def forwardGo (env : SimEnv) (amount gasBuffer : Rat) :
    Nat → Nat → CascadeState → CascadeState × List Nat
  | _, 0, st => (st, [])
  | i, remaining + 1, st =>
      let (running, st0) := pollC env st
      if running then
        match simulateFunding env i amount gasBuffer st0 with
        | (st1, .error _) => (st1, [i])
        | (st1, .ok _) =>
            let st2 := (drawC env st1).2
            let (st3, rest) := forwardGo env amount gasBuffer (i + 1) remaining st2
            (st3, i :: rest)
      else (st0, [])

/-- `CascadeFunding.fundForward(amount, gasBuffer = 0.001)`
(`cascadeFunding.js` lines 11-63): a re-entrant call and a wallet set
smaller than 2 are warning no-ops; otherwise set `isRunning`, cascade
link by link — a single link failure aborts the remaining chain — and
finally clear `isRunning`. -/
def fundForward (env : SimEnv) (amount gasBuffer : Rat) (st : CascadeState) :
    CascadeState × List Nat :=
  if st.isRunning then (st, [])
  else if st.wallets.length < 2 then (st, [])
  else
    let st1 := { st with isRunning := true }
    let (st2, att) := forwardGo env amount gasBuffer 0 (st1.wallets.length - 1) st1
    ({ st2 with isRunning := false }, att)

/-- The wallet loop of `fundReverse` (`for i = wallets.length - 1;
i >= 0; i--`): the argument is `i + 1`, so `0` terminates.  Poll
cancellation, attempt the transfer; an error is caught and logged and
the traversal *continues*; on success take the `randomDelay(2000,
8000)` draw.  Returns the final state and the attempted positions. -/
def reverseGo (env : SimEnv) : Nat → CascadeState → CascadeState × List Nat
  | 0, st => (st, [])
  | i + 1, st =>
      let (running, st0) := pollC env st
      if running then
        let st1 :=
          match simulateReverseFunding env i st0 with
          | (s, .error _) => s
          | (s, .ok _) => (drawC env s).2
        let (st2, rest) := reverseGo env i st1
        (st2, i :: rest)
      else (st0, [])

/-- `CascadeFunding.fundReverse(destinationAddress)`
(`cascadeFunding.js` lines 65-118): a re-entrant call, an empty wallet
set, and a missing destination are warning no-ops; otherwise set
`isRunning`, drain wallets from last to first — failures are logged
and traversal continues — and finally clear `isRunning`.  The
destination address only determines where the last transfer is aimed
and does not affect the state. -/
def fundReverse (env : SimEnv) (destinationAddress : String) (st : CascadeState) :
    CascadeState × List Nat :=
  if st.isRunning then (st, [])
  else if st.wallets.length < 1 then (st, [])
  else if destinationAddress = "" then (st, [])
  else
    let st1 := { st with isRunning := true }
    let (st2, att) := reverseGo env st1.wallets.length st1
    ({ st2 with isRunning := false }, att)

/-! ## Helper lemmas -/

lemma applyImport_not_mem (db : String → List String)
    (entries : List (String × List String)) (name : String)
    (h : name ∉ entries.map Prod.fst) :
    applyImport db entries name = db name := by
  induction entries generalizing db with
  | nil => rfl
  | cons e rest ih =>
      obtain ⟨n, items⟩ := e
      simp only [List.map_cons, List.mem_cons, not_or] at h
      rw [applyImport, ih _ h.2]
      by_cases hi : items.length > 0
      · simp only [hi, if_true]
        exact Function.update_noteq h.1 _ _
      · simp [hi]

/-! ## Claim theorems: persistence (C3, C4) -/

/-- A concrete store with one wallet record in the `wallets`
collection. -/
def dbC4 : String → List String := fun n => if n = "wallets" then ["w0"] else []

/-- C4 (counterexample): `importData` does *not* fully replace a
collection that the document names with an empty list — the
`items.length > 0` guard skips it, so the prior contents survive.
Here the document names `wallets` with `[]`, yet the restored store
still maps `wallets` to the old `["w0"]` instead of `[]`. -/
theorem importData_empty_collection_counterexample :
    (importData (some ⟨1, 0, some [("wallets", [])]⟩) dbC4).map (fun f => f "wallets")
      = .ok ["w0"] := by
  rfl

lemma applyImport_mem (entries : List (String × List String))
    (hnodup : (entries.map Prod.fst).Nodup) (db : String → List String)
    (name : String) (items : List String) (hmem : (name, items) ∈ entries) :
    applyImport db entries name = if items = [] then db name else items := by
  induction entries generalizing db with
  | nil => cases hmem
  | cons e rest ih =>
      obtain ⟨n, its⟩ := e
      simp only [List.map_cons, List.nodup_cons] at hnodup
      rw [applyImport]
      rcases List.mem_cons.mp hmem with heq | hrest
      · obtain ⟨rfl, rfl⟩ := Prod.mk.injEq .. ▸ heq
        rw [applyImport_not_mem _ _ _ hnodup.1]
        by_cases hi : items.length > 0
        · have hne : items ≠ [] := by
            intro hnil; rw [hnil] at hi; simp at hi
          simp [hi, hne, Function.update_same]
        · have hnil : items = [] := List.length_eq_zero.mp (by omega)
          simp [hi, hnil]
      · have hne : name ≠ n := by
          intro h
          exact hnodup.1 (h ▸ (List.mem_map.mpr ⟨(name, items), hrest, rfl⟩))
        rw [ih hnodup.2 _ hrest]
        by_cases hi2 : its.length > 0 <;>
          simp [hi2, Function.update_noteq hne]

/-- C4 (amended): restore replaces each collection named in the
document *whose entry list is non-empty* with exactly the listed
entries; a collection named with an empty list, and every collection
not named at all, keeps its prior contents.  (Stated for documents
whose store names are distinct, as produced by `exportAllData`.) -/
theorem importData_replaces_nonempty_collections
    (doc : BackupDoc) (entries : List (String × List String))
    (db db2 : String → List String)
    (hdata : doc.data = some entries)
    (hnodup : (entries.map Prod.fst).Nodup)
    (hok : importData (some doc) db = .ok db2) :
    (∀ name items, (name, items) ∈ entries →
        db2 name = if items = [] then db name else items) ∧
    (∀ name, name ∉ entries.map Prod.fst → db2 name = db name) := by
  have hdb2 : db2 = applyImport db entries := by
    rw [importData, hdata] at hok
    cases hok
    rfl
  subst hdb2
  exact ⟨fun name items hmem => applyImport_mem entries hnodup db name items hmem,
         fun name hname => applyImport_not_mem db entries name hname⟩

/-- C4 (witness for the amended theorem): on a concrete document with a
non-empty `wallets` list and an empty `history` list, the non-empty
collection is replaced and the empty one keeps the prior contents. -/
theorem importData_replaces_nonempty_collections_witness :
    applyImport dbC4 [("wallets", ["a"]), ("history", [])] "wallets"
      = (if (["a"] : List String) = [] then dbC4 "wallets" else ["a"]) ∧
    applyImport dbC4 [("wallets", ["a"]), ("history", [])] "history"
      = (if ([] : List String) = [] then dbC4 "history" else []) := by
  have h := importData_replaces_nonempty_collections
      ⟨1, 0, some [("wallets", ["a"]), ("history", [])]⟩
      [("wallets", ["a"]), ("history", [])] dbC4 _ rfl (by decide) rfl
  exact ⟨h.1 "wallets" ["a"] (by simp), h.1 "history" [] (by simp)⟩

/-- An encryption environment whose Web-Crypto operation fails, taking
the catch branch of `encrypt`. -/
def cryptoFail : CryptoEnv := ⟨false, fun s => s ++ "?"⟩

/-- An encryption environment whose Web-Crypto operation succeeds. -/
def cryptoOk : CryptoEnv := ⟨true, fun s => "enc-" ++ s⟩

/-- A concrete wallet with non-empty sensitive fields. -/
def walletC3 : Wallet :=
  ⟨0, "evm", "0xabc", "deadbeef", "abandon ability", 0, 0, []⟩

/-- C3 (counterexample): when the encryption operation fails, the catch
branch of `encrypt` returns the data unchanged ("Fallback to
unencrypted" in the source), so `saveWallets` persists the raw
`privateKey` and `mnemonic` in plaintext. -/
theorem saveWallets_plaintext_fallback_counterexample :
    (saveWallets cryptoFail [walletC3]).map Wallet.privateKey = ["deadbeef"] ∧
    (saveWallets cryptoFail [walletC3]).map Wallet.mnemonic = ["abandon ability"] := by
  exact ⟨rfl, rfl⟩

/-- C3 (amended): every record persisted by the bulk save carries
`encrypt` of its sensitive fields: whenever the encryption operation
succeeds and the field is non-empty, the stored value is the cipher
output; on an encryption failure or an empty field the plaintext is
stored unchanged (the code's documented best-effort fallback). -/
theorem saveWallets_encrypts_each_record (cenv : CryptoEnv) (ws : List Wallet)
    (w2 : Wallet) (h : w2 ∈ saveWallets cenv ws) :
    ∃ w ∈ ws, w2.privateKey = encrypt cenv w.privateKey ∧
      w2.mnemonic = encrypt cenv w.mnemonic ∧
      (cenv.ok = true → w.privateKey ≠ "" → w2.privateKey = cenv.cipher w.privateKey) ∧
      (cenv.ok = true → w.mnemonic ≠ "" → w2.mnemonic = cenv.cipher w.mnemonic) := by
  simp only [saveWallets, List.mem_map] at h
  obtain ⟨w, hw, rfl⟩ := h
  refine ⟨w, hw, rfl, rfl, ?_, ?_⟩ <;>
    · intro hok hne
      simp [encryptRecord, encrypt, hok, hne]

/-- C3 (witness for the amended theorem): concrete successful
encryption of a concrete record. -/
theorem saveWallets_encrypts_each_record_witness :
    ∃ w ∈ [walletC3],
      (encryptRecord cryptoOk walletC3).privateKey = encrypt cryptoOk w.privateKey ∧
      (encryptRecord cryptoOk walletC3).mnemonic = encrypt cryptoOk w.mnemonic ∧
      (cryptoOk.ok = true → w.privateKey ≠ "" →
        (encryptRecord cryptoOk walletC3).privateKey = cryptoOk.cipher w.privateKey) ∧
      (cryptoOk.ok = true → w.mnemonic ≠ "" →
        (encryptRecord cryptoOk walletC3).mnemonic = cryptoOk.cipher w.mnemonic) :=
  saveWallets_encrypts_each_record cryptoOk [walletC3] _ (by simp [saveWallets])


/-! ## Claim theorems: cascade failure frame (C10) and index reuse (C2) -/

/-- C10: a failing simulated cascade transfer — in `simulateFunding`
(forward) or `simulateReverseFunding` (reverse), for any failure cause
(the random failure draw, or the reserve-floor balance check) — leaves
every wallet unchanged: balance mutations happen only after the
failure draw and the balance check have both passed. -/
theorem simulate_failure_preserves_balances (env : SimEnv) (st : CascadeState)
    (i : Nat) (amount gasBuffer : Rat) :
    (∀ e, (simulateFunding env i amount gasBuffer st).2 = .error e →
        (simulateFunding env i amount gasBuffer st).1.wallets = st.wallets) ∧
    (∀ e, (simulateReverseFunding env i st).2 = .error e →
        (simulateReverseFunding env i st).1.wallets = st.wallets) := by
  constructor
  · intro e he
    simp only [simulateFunding, drawC] at he ⊢
    split_ifs at he ⊢
    rfl
  · intro e he
    simp only [simulateReverseFunding, drawC] at he ⊢
    split_ifs at he ⊢ <;> rfl

/-- The all-zero draw stream (every `Math.random()` returns 0) with no
cancellation, for concrete executor and cascade runs. -/
def envZeroS : SimEnv := ⟨fun _ => 0, fun _ => false⟩

/-- A one-wallet cascade state with a zero balance. -/
def stC10 : CascadeState := ⟨[walletC3], false, 0, 0⟩

/-- C10 (witness): under the all-zero draw stream the failure draw
fires (`0 < 0.1`) and the wallet list is untouched. -/
theorem simulate_failure_preserves_balances_witness :
    (simulateFunding envZeroS 0 1 (1 / 1000) stC10).1.wallets = stC10.wallets :=
  (simulate_failure_preserves_balances envZeroS stC10 0 1 (1 / 1000)).1
    "Transaction failed: insufficient gas" (by norm_num [simulateFunding, drawC, envZeroS])

/-- The all-zero generation environment: every draw is 0, the clock
reads 0. -/
def genEnvZero : GenEnv := ⟨fun _ => 0, 0⟩

/-- C2 (code bug): the second of two `generateWallets(1, 'evm')` runs
assigns index 0 again — `_generateBatch` receives the run-local loop
offset as `startIndex`, not the prior maximum plus one — so the store
ends up holding two records with `index = 0`.  The surrounding code
presumes unique indices: the object store is keyed by `index`
(`db.js`: `keyPath: 'index'`, written with `add`, which rejects
duplicate keys) and `getWalletByIndex` / `markTestnetCompleted`
resolve wallets by their `index` field. -/
theorem generateWallets_reuses_index :
    ((generateWallets genEnvZero cryptoOk 1 "evm"
        (generateWallets genEnvZero cryptoOk 1 "evm" ⟨[], [], 0⟩).1).1.wallets.map
      Wallet.index) = [0, 0] := by
  rfl

/-! ## Claim theorems: all-or-nothing generation (C7) -/

lemma generateSingleWallet_ok (env : GenEnv) (chainType : String)
    (hct : chainType = "evm" ∨ chainType = "solana") (start k : Nat) :
    ∃ w k1, generateSingleWallet env chainType start k = .ok (w, k1) := by
  rcases hct with h | h <;> subst h <;> exact ⟨_, _, rfl⟩

lemma generateBatch_length (env : GenEnv) (chainType : String)
    (hct : chainType = "evm" ∨ chainType = "solana") :
    ∀ (c start k : Nat), ∃ ws k2,
      generateBatch env chainType c start k = .ok (ws, k2) ∧ ws.length = c := by
  intro c
  induction c with
  | zero => intro start k; exact ⟨[], k, rfl, rfl⟩
  | succ c ih =>
      intro start k
      obtain ⟨w, k1, hw⟩ := generateSingleWallet_ok env chainType hct start k
      obtain ⟨ws, k2, hb, hlen⟩ := ih (start + 1) k1
      refine ⟨w :: ws, k2, ?_, by simp [hlen]⟩
      simp only [generateBatch, hw, hb]

lemma genLoop_length (env : GenEnv) (chainType : String)
    (hct : chainType = "evm" ∨ chainType = "solana") (count : Nat) :
    ∀ (fuel i k : Nat), count ≤ i + 100 * fuel →
      ∃ ws k2, genLoop env chainType count fuel i k = .ok (ws, k2)
        ∧ ws.length = count - i := by
  intro fuel
  induction fuel with
  | zero =>
      intro i k hfuel
      exact ⟨[], k, rfl, by simp only [List.length_nil]; omega⟩
  | succ fuel ih =>
      intro i k hfuel
      by_cases h : i < count
      · obtain ⟨bw, k1, hb, hblen⟩ :=
          generateBatch_length env chainType hct (min 100 (count - i)) i k
        obtain ⟨ws, k2, hloop, hwlen⟩ := ih (i + 100) k1 (by omega)
        refine ⟨bw ++ ws, k2, ?_, ?_⟩
        · simp only [genLoop, h, if_true, hb, hloop]
        · simp only [List.length_append, hblen, hwlen]; omega
      · exact ⟨[], k, by simp only [genLoop, h, if_false],
          by simp only [List.length_nil]; omega⟩

lemma genLoop_bad_chain (env : GenEnv) (chainType : String)
    (h1 : chainType ≠ "evm") (h2 : chainType ≠ "solana") (count : Nat)
    (hc : 1 ≤ count) (fuel k : Nat) (hfuel : 1 ≤ fuel) :
    genLoop env chainType count fuel 0 k = .error "Unsupported chain type" := by
  obtain ⟨f, rfl⟩ : ∃ f, fuel = f + 1 := ⟨fuel - 1, by omega⟩
  have h : 0 < count := hc
  obtain ⟨m, hm⟩ : ∃ m, min 100 (count - 0) = m + 1 := ⟨min 100 count - 1, by omega⟩
  have hgsw : generateSingleWallet env chainType 0 k = .error "Unsupported chain type" := by
    simp [generateSingleWallet, h1, h2]
  simp only [genLoop, h, if_true, hm, generateBatch, hgsw]

/-- C7: identity generation is all-or-nothing.  A count outside
`[1, 20000]` throws the validation error before any work begins and
leaves the state untouched; an unsupported chain variant throws and
leaves the state untouched (zero new records kept); otherwise exactly
`count` new records are produced, appended to the in-memory wallet set,
and the full set is persisted (encrypted) to the store. -/
theorem generateWallets_all_or_nothing (env : GenEnv) (cenv : CryptoEnv)
    (count : Nat) (chainType : String) (st : WMState) :
    (count < 1 ∨ count > 20000 →
      generateWallets env cenv count chainType st
        = (st, .error "Wallet count must be between 1 and 20,000")) ∧
    (1 ≤ count → count ≤ 20000 → chainType ≠ "evm" → chainType ≠ "solana" →
      generateWallets env cenv count chainType st
        = (st, .error "Unsupported chain type")) ∧
    (1 ≤ count → count ≤ 20000 → (chainType = "evm" ∨ chainType = "solana") →
      ∃ nw, (generateWallets env cenv count chainType st).2 = .ok nw ∧
        nw.length = count ∧
        (generateWallets env cenv count chainType st).1.wallets = st.wallets ++ nw ∧
        (generateWallets env cenv count chainType st).1.store
          = saveWallets cenv (st.wallets ++ nw)) := by
  refine ⟨?_, ?_, ?_⟩
  · intro h
    simp only [generateWallets, h, if_true]
  · intro hc1 hc2 h1 h2
    have hrange : ¬(count < 1 ∨ count > 20000) := by omega
    simp only [generateWallets, hrange, if_false,
      genLoop_bad_chain env chainType h1 h2 count hc1 count st.rng hc1]
  · intro hc1 hc2 hct
    have hrange : ¬(count < 1 ∨ count > 20000) := by omega
    obtain ⟨ws, k2, hloop, hlen⟩ :=
      genLoop_length env chainType hct count count 0 st.rng (by omega)
    refine ⟨ws, ?_, by omega, ?_, ?_⟩ <;>
      simp only [generateWallets, hrange, if_false, hloop]

/-- C7 (witness): a concrete in-range generation run producing exactly
one record appended and persisted. -/
theorem generateWallets_all_or_nothing_witness :
    ∃ nw, (generateWallets genEnvZero cryptoOk 1 "evm" ⟨[], [], 0⟩).2 = .ok nw ∧
      nw.length = 1 ∧
      (generateWallets genEnvZero cryptoOk 1 "evm" ⟨[], [], 0⟩).1.wallets
        = [] ++ nw ∧
      (generateWallets genEnvZero cryptoOk 1 "evm" ⟨[], [], 0⟩).1.store
        = saveWallets cryptoOk ([] ++ nw) :=
  (generateWallets_all_or_nothing genEnvZero cryptoOk 1 "evm" ⟨[], [], 0⟩).2.2
    (by norm_num) (by norm_num) (Or.inl rfl)


/-! ## Claim theorems: forward abort (C5) and reverse continuation (C6) -/

lemma pollC_run (env : SimEnv) (st : CascadeState)
    (hstop : env.stop st.polls = false) (h : st.isRunning = true) :
    pollC env st = (true, { st with isRunning := true, polls := st.polls + 1 }) := by
  simp [pollC, hstop, h]

lemma simulateFunding_fail (env : SimEnv) (i : Nat) (am g : Rat)
    (st : CascadeState) (h : env.rand (st.rng + 1) < 1 / 10) :
    simulateFunding env i am g st
      = ({ st with rng := st.rng + 1 + 1 },
         .error "Transaction failed: insufficient gas") := by
  simp only [simulateFunding, drawC]
  rw [if_pos h]

lemma simulateFunding_ok (env : SimEnv) (i : Nat) (am g : Rat)
    (st : CascadeState) (h : ¬env.rand (st.rng + 1) < 1 / 10) :
    simulateFunding env i am g st
      = ({ st with
            rng := st.rng + 1 + 1,
            wallets := setBalance
              (setBalance st.wallets i
                (toFixed6 ((((st.wallets.get? i).map Wallet.balance).getD 0) - am)))
              (i + 1)
              (toFixed6 ((((st.wallets.get? (i + 1)).map Wallet.balance).getD 0)
                + (am - g))) }, .ok ()) := by
  simp only [simulateFunding, drawC]
  rw [if_neg h]

lemma setBalance_get?_ne (ws : List Wallet) (p j : Nat) (b : Rat) (h : p ≠ j) :
    (setBalance ws p b).get? j = ws.get? j := by
  rw [setBalance]
  cases hp : ws.get? p with
  | none => rfl
  | some w => exact List.get?_set_ne _ _ h

lemma forwardGo_abort (env : SimEnv) (am g : Rat)
    (hstop : ∀ t, env.stop t = false) :
    ∀ (d a rem : Nat) (f : Nat) (st : CascadeState),
      f - a = d → st.isRunning = true → a ≤ f → f < a + rem →
      (∀ k, a ≤ k → k < f → ¬(env.rand (st.rng + 3 * (k - a) + 1) < 1 / 10)) →
      env.rand (st.rng + 3 * (f - a) + 1) < 1 / 10 →
      (forwardGo env am g a rem st).2 = List.range' a (f - a + 1) ∧
      ∀ j, f < j →
        (forwardGo env am g a rem st).1.wallets.get? j = st.wallets.get? j := by
  intro d
  induction d with
  | zero =>
      intro a rem f st hd hrun haf hrem _hsucc hfail
      have haf2 : a = f := by omega
      subst haf2
      obtain ⟨r, rfl⟩ : ∃ r, rem = r + 1 := ⟨rem - 1, by omega⟩
      have hfail2 : env.rand (st.rng + 1) < 1 / 10 := by
        have heq : st.rng + 3 * (a - a) + 1 = st.rng + 1 := by omega
        rwa [heq] at hfail
      rw [forwardGo, pollC_run env st (hstop _) hrun]
      dsimp only
      rw [if_pos rfl]
      rw [simulateFunding_fail env a am g
          { st with isRunning := true, polls := st.polls + 1 } hfail2]
      dsimp only
      refine ⟨?_, fun j _ => rfl⟩
      have heq : a - a + 1 = 1 := by omega
      rw [heq]
      rfl
  | succ d ih =>
      intro a rem f st hd hrun haf hrem hsucc hfail
      have haf2 : a < f := by omega
      obtain ⟨r, rfl⟩ : ∃ r, rem = r + 1 := ⟨rem - 1, by omega⟩
      have hok : ¬env.rand (st.rng + 1) < 1 / 10 := by
        have h0 := hsucc a (le_refl a) haf2
        have heq : st.rng + 3 * (a - a) + 1 = st.rng + 1 := by omega
        rwa [heq] at h0
      rw [forwardGo, pollC_run env st (hstop _) hrun]
      dsimp only
      rw [if_pos rfl]
      rw [simulateFunding_ok env a am g
          { st with isRunning := true, polls := st.polls + 1 } hok]
      dsimp only [drawC]
      obtain ⟨ihr, ihw⟩ := ih (a + 1) r f
        { wallets := setBalance (setBalance st.wallets a
              (toFixed6 ((((st.wallets.get? a).map Wallet.balance).getD 0) - am)))
            (a + 1)
            (toFixed6 ((((st.wallets.get? (a + 1)).map Wallet.balance).getD 0)
              + (am - g))),
          isRunning := true, rng := st.rng + 1 + 1 + 1, polls := st.polls + 1 }
        (by omega) rfl (by omega) (by omega)
        (by intro k hk1 hk2
            have h0 := hsucc k (by omega) hk2
            have heq : st.rng + 1 + 1 + 1 + 3 * (k - (a + 1)) + 1
                = st.rng + 3 * (k - a) + 1 := by omega
            dsimp only
            rw [heq]
            exact h0)
        (by dsimp only
            have heq : st.rng + 1 + 1 + 1 + 3 * (f - (a + 1)) + 1
                = st.rng + 3 * (f - a) + 1 := by omega
            rw [heq]
            exact hfail)
      constructor
      · rw [ihr]
        have heq : f - a + 1 = (f - (a + 1) + 1) + 1 := by omega
        rw [heq]
        simp [List.range'_succ]
      · intro j hj
        rw [ihw j hj]
        dsimp only
        rw [setBalance_get?_ne _ _ _ _ (by omega : a + 1 ≠ j),
            setBalance_get?_ne _ _ _ _ (by omega : a ≠ j)]

/-- C5: if the simulated transfer at link `i` of `fundForward` fails
(all earlier links having succeeded, with no cancellation), the entire
forward cascade aborts: the attempted links are exactly `0 … i` — no
link `j > i` is attempted — and every wallet after the failure point
keeps its pre-cascade record, in particular its balance.  Link `k`'s
failure draw sits at stream position `st.rng + 3k + 1`: each
successful link consumes its delay draw, its failure draw and its
pause draw. -/
theorem fundForward_aborts_on_failure (env : SimEnv) (am g : Rat)
    (st : CascadeState) (i : Nat)
    (hstop : ∀ t, env.stop t = false) (hrun : st.isRunning = false)
    (hn : 2 ≤ st.wallets.length) (hi : i < st.wallets.length - 1)
    (hsucc : ∀ k, k < i → ¬(env.rand (st.rng + 3 * k + 1) < 1 / 10))
    (hfail : env.rand (st.rng + 3 * i + 1) < 1 / 10) :
    (fundForward env am g st).2 = List.range (i + 1) ∧
    ∀ j, i < j →
      (fundForward env am g st).1.wallets.get? j = st.wallets.get? j := by
  have h2 : ¬st.wallets.length < 2 := by omega
  have hmain := forwardGo_abort env am g hstop i 0 (st.wallets.length - 1) i
    { st with isRunning := true } rfl rfl (Nat.zero_le i) (by omega)
    (fun k _ hk => hsucc k hk) hfail
  simp only [fundForward, hrun, Bool.false_eq_true, if_false, h2]
  rcases hfg : forwardGo env am g 0 (st.wallets.length - 1)
      { st with isRunning := true } with ⟨stF, att⟩
  rw [hfg] at hmain
  dsimp only at hmain ⊢
  refine ⟨?_, fun j hj => hmain.2 j hj⟩
  rw [List.range_eq_range']
  exact hmain.1

/-- C5 witness environment: link 0 succeeds, link 1 fails. -/
def envC5 : SimEnv := ⟨fun k => if k = 4 then 0 else 1 / 2, fun _ => false⟩

/-- Three zero-balance wallets for the C5 witness. -/
def stC5 : CascadeState :=
  ⟨[walletC3, { walletC3 with index := 1 }, { walletC3 with index := 2 }],
   false, 0, 0⟩

/-- C5 (witness): with three wallets, a successful link 0 and a failing
link 1, exactly links 0 and 1 are attempted and the wallet after the
failure point is untouched. -/
theorem fundForward_aborts_on_failure_witness :
    (fundForward envC5 1 (1 / 1000) stC5).2 = List.range 2 ∧
    (fundForward envC5 1 (1 / 1000) stC5).1.wallets.get? 2
      = stC5.wallets.get? 2 := by
  have h := fundForward_aborts_on_failure envC5 1 (1 / 1000) stC5 1
    (fun _ => rfl) rfl (by norm_num [stC5]) (by norm_num [stC5])
    (by intro k hk
        interval_cases k
        norm_num [envC5, stC5])
    (by norm_num [envC5, stC5])
  exact ⟨h.1, h.2 2 (by norm_num)⟩

lemma simulateReverseFunding_isRunning (env : SimEnv) (i : Nat) (st : CascadeState) :
    (simulateReverseFunding env i st).1.isRunning = st.isRunning := by
  simp only [simulateReverseFunding, drawC]
  split_ifs <;> rfl

lemma reverseGo_all (env : SimEnv) (hstop : ∀ t, env.stop t = false) :
    ∀ (m : Nat) (st : CascadeState), st.isRunning = true →
      (reverseGo env m st).2 = (List.range m).reverse := by
  intro m
  induction m with
  | zero => intro st _; rfl
  | succ m ih =>
      intro st hrun
      rw [reverseGo, pollC_run env st (hstop _) hrun]
      dsimp only
      rw [if_pos rfl]
      rcases hsrf : simulateReverseFunding env m
          { st with isRunning := true, polls := st.polls + 1 } with ⟨s, res⟩
      have hsrun : s.isRunning = true := by
        have := simulateReverseFunding_isRunning env m
          { st with isRunning := true, polls := st.polls + 1 }
        rw [hsrf] at this
        exact this
      cases res with
      | error e =>
          dsimp only
          rcases hrg : reverseGo env m s with ⟨st2, rest⟩
          have h2 := ih s hsrun
          rw [hrg] at h2
          dsimp only at h2
          rw [h2]
          simp [List.range_succ]
      | ok u =>
          dsimp only
          rcases hrg : reverseGo env m (drawC env s).2 with ⟨st2, rest⟩
          have h2 := ih (drawC env s).2 (by simp [drawC, hsrun])
          rw [hrg] at h2
          dsimp only at h2
          rw [h2]
          simp [List.range_succ]

/-- C6: in `fundReverse` (with no cancellation), a failure of one
wallet's transfer never stops the traversal: whatever the draws — any
mix of simulated network failures and insufficient-balance failures —
every wallet is still attempted, in last-to-first order.  Moreover a
transfer whose available balance does not exceed the 0.001 reserve
floor fails with the insufficient-balance error (which the loop then
logs and skips past exactly like a network failure). -/
theorem fundReverse_continues_on_failure (env : SimEnv)
    (destinationAddress : String) (st : CascadeState)
    (hstop : ∀ t, env.stop t = false) (hrun : st.isRunning = false)
    (hw : 1 ≤ st.wallets.length) (hd : destinationAddress ≠ "") :
    (fundReverse env destinationAddress st).2
      = (List.range st.wallets.length).reverse ∧
    (∀ (st2 : CascadeState) (i : Nat) (w : Wallet),
      st2.wallets.get? i = some w → ¬(env.rand (st2.rng + 1) < 1 / 20) →
      w.balance ≤ 1 / 1000 →
      (simulateReverseFunding env i st2).2 = .error "Insufficient balance to send") := by
  constructor
  · have h1 : ¬st.wallets.length < 1 := by omega
    simp only [fundReverse, hrun, Bool.false_eq_true, if_false, h1, hd]
    rcases hrg : reverseGo env st.wallets.length
        { st with isRunning := true } with ⟨st2, att⟩
    have h2 := reverseGo_all env hstop st.wallets.length
      { st with isRunning := true } rfl
    rw [hrg] at h2
    dsimp only at h2 ⊢
    exact h2
  · intro st2 i w hget hnet hbal
    simp only [simulateReverseFunding, drawC]
    rw [if_neg hnet, hget]
    simp only [Option.map_some', Option.getD_some]
    rw [if_pos (sup_le le_rfl (by linarith))]

/-- Draw stream with every draw `1/2` and no cancellation. -/
def envHalf : SimEnv := ⟨fun _ => 1 / 2, fun _ => false⟩

/-- Two zero-balance wallets for the C6 witness. -/
def stC6 : CascadeState := ⟨[walletC3, { walletC3 with index := 1 }], false, 0, 0⟩

/-- C6 (witness): with no network failures but zero balances, every
transfer fails with the insufficient-balance error, yet both wallets
are attempted last-to-first. -/
theorem fundReverse_continues_on_failure_witness :
    (fundReverse envHalf "0xdest" stC6).2
      = (List.range stC6.wallets.length).reverse ∧
    (simulateReverseFunding envHalf 0 stC6).2
      = .error "Insufficient balance to send" := by
  have h := fundReverse_continues_on_failure envHalf "0xdest" stC6
    (fun _ => rfl) rfl (by norm_num [stC6]) (by decide)
  exact ⟨h.1, h.2 stC6 0 walletC3 rfl (by norm_num [envHalf, stC6])
    (by norm_num [walletC3])⟩

/-! ## Claim theorems: executor statistics and idempotence (C1, C8, C9) -/

/-- The statistics equation of the amended statistics invariant:
`completed` counts exactly the successful, failed and skipped
wallet/network units. -/
def statsOk (s : Stats) : Prop :=
  s.completed = s.successful + s.failed + s.skipped

lemma swapIdx_length (l : List α) (i j : Nat) :
    (swapIdx l i j).length = l.length := by
  rw [swapIdx]
  cases l.get? i <;> cases l.get? j <;> simp

lemma swapIdx_mem (l : List α) (i j : Nat) (x : α) (h : x ∈ swapIdx l i j) :
    x ∈ l := by
  rw [swapIdx] at h
  cases hi : l.get? i with
  | none => rw [hi] at h; exact h
  | some a =>
      cases hj : l.get? j with
      | none => rw [hi, hj] at h; exact h
      | some b =>
          rw [hi, hj] at h
          rcases List.mem_or_eq_of_mem_set h with h2 | rfl
          · rcases List.mem_or_eq_of_mem_set h2 with h3 | rfl
            · exact h3
            · exact List.get?_mem hj
          · exact List.get?_mem hi

lemma shuffleGo_length (env : SimEnv) :
    ∀ (i : Nat) (l : List α) (st : ExecState),
      (shuffleGo env l i st).1.length = l.length := by
  intro i
  induction i with
  | zero => intro l st; rfl
  | succ i ih =>
      intro l st
      rw [shuffleGo]
      rw [ih]
      exact swapIdx_length ..

lemma shuffleGo_mem (env : SimEnv) :
    ∀ (i : Nat) (l : List α) (st : ExecState) (x : α),
      x ∈ (shuffleGo env l i st).1 → x ∈ l := by
  intro i
  induction i with
  | zero => intro l st x h; exact h
  | succ i ih =>
      intro l st x h
      rw [shuffleGo] at h
      exact swapIdx_mem _ _ _ _ (ih _ _ _ h)

lemma shuffleGo_state (env : SimEnv) :
    ∀ (i : Nat) (l : List α) (st : ExecState),
      (shuffleGo env l i st).2.wallets = st.wallets ∧
      (shuffleGo env l i st).2.stats = st.stats ∧
      (shuffleGo env l i st).2.isRunning = st.isRunning := by
  intro i
  induction i with
  | zero => intro l st; exact ⟨rfl, rfl, rfl⟩
  | succ i ih =>
      intro l st
      rw [shuffleGo]
      exact ih _ _

lemma executeTask_fields (env : SimEnv) (cfg : ExecConfig) (t : String)
    (st : ExecState) :
    (executeTask env cfg t st).1.wallets = st.wallets ∧
    (executeTask env cfg t st).1.stats = st.stats ∧
    (executeTask env cfg t st).1.isRunning = st.isRunning := by
  rw [executeTask]
  dsimp only [draw]
  split_ifs <;> exact ⟨rfl, rfl, rfl⟩

lemma executeTask_fields2 (env : SimEnv) (cfg : ExecConfig) (t : String)
    (st st1 : ExecState) (res : Except String Unit)
    (h : executeTask env cfg t st = (st1, res)) :
    st1.wallets = st.wallets ∧ st1.stats = st.stats ∧ st1.isRunning = st.isRunning := by
  have := executeTask_fields env cfg t st
  rw [h] at this
  exact this

lemma executeWalletTasks_fields (env : SimEnv) (cfg : ExecConfig) :
    ∀ (ts : List String) (st st2 : ExecState) (res : Except String Unit),
      executeWalletTasks env cfg ts st = (st2, res) →
      st2.wallets = st.wallets ∧ st2.stats = st.stats := by
  intro ts
  induction ts with
  | nil =>
      intro st st2 res h
      cases h
      exact ⟨rfl, rfl⟩
  | cons t rest ih =>
      intro st st2 res h
      rw [executeWalletTasks] at h
      dsimp only [poll] at h
      split at h
      · split at h
        next st1 e heq =>
            cases h
            obtain ⟨h1, h2, _⟩ := executeTask_fields2 env cfg t _ _ _ heq
            exact ⟨h1, h2⟩
        next st1 u heq =>
            obtain ⟨h1, h2, _⟩ := executeTask_fields2 env cfg t _ _ _ heq
            obtain ⟨h3, h4⟩ := ih (draw env st1).2 st2 res h
            exact ⟨h3.trans h1, h4.trans h2⟩
      · cases h
        exact ⟨rfl, rfl⟩

lemma markTestnetCompleted_length (idx : Nat) (name : String) :
    ∀ ws : List Wallet, (markTestnetCompleted idx name ws).length = ws.length := by
  intro ws
  induction ws with
  | nil => rfl
  | cons w rest ih =>
      rw [markTestnetCompleted]
      by_cases h : w.index = idx
      · rw [if_pos h]; simp
      · rw [if_neg h]; simpa using ih


lemma walletPause_fields (env : SimEnv) (cfg : ExecConfig) (x : ExecState) :
    (walletPause env cfg x).stats = x.stats ∧
    (walletPause env cfg x).wallets = x.wallets := by
  rw [walletPause]
  split_ifs <;> exact ⟨rfl, rfl⟩

lemma execWalletUnit_inv (env : SimEnv) (cfg : ExecConfig) (tn : Testnet)
    (p : Nat) (st : ExecState) :
    (execWalletUnit env cfg tn p st).stats.totalTasks = st.stats.totalTasks ∧
    (execWalletUnit env cfg tn p st).wallets.length = st.wallets.length ∧
    (execWalletUnit env cfg tn p st).stats.completed ≤ st.stats.completed + 1 ∧
    (statsOk st.stats → statsOk (execWalletUnit env cfg tn p st).stats) := by
  rw [execWalletUnit]
  split
  · exact ⟨rfl, rfl, by omega, fun h => h⟩
  next w _hw =>
    split_ifs with hmem
    · refine ⟨rfl, rfl, le_refl _, ?_⟩
      intro h
      simp only [statsOk] at h ⊢
      omega
    · rcases hwt : executeWalletTasks env cfg (tn.tasks.getD ["custom"]) st
        with ⟨st1, res⟩
      obtain ⟨hw1, hs1⟩ := executeWalletTasks_fields env cfg _ st st1 res hwt
      cases res with
      | ok u =>
          dsimp only
          rw [(walletPause_fields env cfg _).1, (walletPause_fields env cfg _).2]
          dsimp only
          rw [markTestnetCompleted_length, hw1, hs1]
          refine ⟨rfl, rfl, le_refl _, ?_⟩
          intro h
          simp only [statsOk] at h ⊢
          omega
      | error e =>
          dsimp only
          rw [(walletPause_fields env cfg _).1, (walletPause_fields env cfg _).2]
          dsimp only
          rw [hw1, hs1]
          refine ⟨rfl, rfl, le_refl _, ?_⟩
          intro h
          simp only [statsOk] at h ⊢
          omega

lemma execWalletLoop_inv (env : SimEnv) (cfg : ExecConfig) (tn : Testnet) :
    ∀ (ps : List Nat) (st st2 : ExecState) (tr : List Stats),
      execWalletLoop env cfg tn ps st = (st2, tr) →
      st2.stats.totalTasks = st.stats.totalTasks ∧
      st2.wallets.length = st.wallets.length ∧
      st2.stats.completed ≤ st.stats.completed + ps.length ∧
      (statsOk st.stats → statsOk st2.stats) ∧
      (∀ s ∈ tr, s.totalTasks = st.stats.totalTasks ∧
        s.completed ≤ st.stats.completed + ps.length ∧
        (statsOk st.stats → statsOk s)) := by
  intro ps
  induction ps with
  | nil =>
      intro st st2 tr h
      cases h
      exact ⟨rfl, rfl, by omega, fun h => h, by simp⟩
  | cons p rest ih =>
      intro st st2 tr h
      rw [execWalletLoop] at h
      dsimp only [poll] at h
      split at h
      · rcases hloop : execWalletLoop env cfg tn rest
            (execWalletUnit env cfg tn p
              ⟨st.wallets, st.stats, st.isRunning && !env.stop st.polls,
               st.rng, st.polls + 1⟩) with ⟨st2x, trx⟩
        rw [hloop] at h
        cases h
        obtain ⟨hu1, hu2, hu3, hu4⟩ := execWalletUnit_inv env cfg tn p
          ⟨st.wallets, st.stats, st.isRunning && !env.stop st.polls,
           st.rng, st.polls + 1⟩
        obtain ⟨hl1, hl2, hl3, hl4, hl5⟩ := ih _ st2x trx hloop
        dsimp only at hu1 hu2 hu3 hu4
        refine ⟨hl1.trans hu1, hl2.trans hu2, ?_, fun h0 => hl4 (hu4 h0), ?_⟩
        · simp only [List.length_cons]
          omega
        · intro s hs
          rcases List.mem_cons.mp hs with rfl | hs2
          · exact ⟨hu1, by simp only [List.length_cons]; omega, hu4⟩
          · obtain ⟨ht1, ht2, ht3⟩ := hl5 s hs2
            refine ⟨ht1.trans hu1, ?_, fun h0 => ht3 (hu4 h0)⟩
            simp only [List.length_cons]
            omega
      · cases h
        refine ⟨rfl, rfl, ?_, fun h => h, by simp⟩
        dsimp only
        omega

lemma executeTestnet_inv (env : SimEnv) (cfg : ExecConfig) (tn : Testnet)
    (st st2 : ExecState) (tr : List Stats)
    (h : executeTestnet env cfg tn st = (st2, tr)) :
    st2.stats.totalTasks = st.stats.totalTasks ∧
    st2.wallets.length = st.wallets.length ∧
    st2.stats.completed ≤ st.stats.completed + st.wallets.length ∧
    (statsOk st.stats → statsOk st2.stats) ∧
    (∀ s ∈ tr, s.totalTasks = st.stats.totalTasks ∧
      s.completed ≤ st.stats.completed + st.wallets.length ∧
      (statsOk st.stats → statsOk s)) := by
  rw [executeTestnet] at h
  dsimp only at h
  split at h
  · rw [shuffleArray] at h
    obtain ⟨hl1, hl2, hl3, hl4, hl5⟩ := execWalletLoop_inv env cfg tn _ _ st2 tr h
    have hst1 := shuffleGo_state env ((List.range st.wallets.length).length - 1)
      (List.range st.wallets.length) st
    have hlen : (shuffleGo env (List.range st.wallets.length)
        ((List.range st.wallets.length).length - 1) st).1.length
        = st.wallets.length := by
      rw [shuffleGo_length]
      exact List.length_range _
    rw [hst1.2.1] at hl1 hl3 hl4 hl5
    rw [hst1.1] at hl2
    rw [hlen] at hl3 hl5
    exact ⟨hl1, hl2, hl3, hl4, hl5⟩
  · obtain ⟨hl1, hl2, hl3, hl4, hl5⟩ := execWalletLoop_inv env cfg tn _ st st2 tr h
    rw [List.length_range] at hl3 hl5
    exact ⟨hl1, hl2, hl3, hl4, hl5⟩

lemma execTestnetLoop_inv (env : SimEnv) (cfg : ExecConfig) :
    ∀ (tns : List Testnet) (st st2 : ExecState) (tr : List Stats),
      execTestnetLoop env cfg tns st = (st2, tr) →
      st2.stats.totalTasks = st.stats.totalTasks ∧
      st2.wallets.length = st.wallets.length ∧
      st2.stats.completed ≤ st.stats.completed + tns.length * st.wallets.length ∧
      (statsOk st.stats → statsOk st2.stats) ∧
      (∀ s ∈ tr, s.totalTasks = st.stats.totalTasks ∧
        s.completed ≤ st.stats.completed + tns.length * st.wallets.length ∧
        (statsOk st.stats → statsOk s)) := by
  intro tns
  induction tns with
  | nil =>
      intro st st2 tr h
      cases h
      exact ⟨rfl, rfl, by omega, fun h => h, by simp⟩
  | cons tn rest ih =>
      intro st st2 tr h
      rw [execTestnetLoop] at h
      dsimp only [poll] at h
      split at h
      · rcases htn : executeTestnet env cfg tn
            ⟨st.wallets, st.stats, st.isRunning && !env.stop st.polls,
             st.rng, st.polls + 1⟩ with ⟨st1, tr1⟩
        rw [htn] at h
        dsimp only at h
        rcases hrest : execTestnetLoop env cfg rest
            (if cfg.testnetDelay ≠ 0 ∧ st1.isRunning = true
             then (draw env st1).2 else st1) with ⟨st3, tr2⟩
        rw [hrest] at h
        cases h
        obtain ⟨h1, h2, h3, h4, h5⟩ := executeTestnet_inv env cfg tn _ st1 tr1 htn
        dsimp only at h1 h2 h3 h4 h5
        have hdel : (if cfg.testnetDelay ≠ 0 ∧ st1.isRunning = true
            then (draw env st1).2 else st1).stats = st1.stats ∧
            (if cfg.testnetDelay ≠ 0 ∧ st1.isRunning = true
            then (draw env st1).2 else st1).wallets = st1.wallets := by
          split_ifs <;> exact ⟨rfl, rfl⟩
        obtain ⟨g1, g2, g3, g4, g5⟩ := ih _ st3 tr2 hrest
        rw [hdel.1] at g1 g3 g4 g5
        rw [hdel.2] at g2 g3 g5
        rw [h2] at g3 g5
        refine ⟨g1.trans h1, g2.trans h2, ?_, fun h0 => g4 (h4 h0), ?_⟩
        · simp only [List.length_cons, Nat.succ_mul]
          omega
        · intro s hs
          rcases List.mem_append.mp hs with hs1 | hs2
          · obtain ⟨t1, t2, t3⟩ := h5 s hs1
            refine ⟨t1, ?_, t3⟩
            simp only [List.length_cons, Nat.succ_mul]
            have hW : st.wallets.length * 1 ≤ (rest.length + 1) * st.wallets.length := by
              simp [Nat.succ_mul]
            omega
          · obtain ⟨t1, t2, t3⟩ := g5 s hs2
            refine ⟨t1.trans h1, ?_, fun h0 => t3 (h4 h0)⟩
            simp only [List.length_cons, Nat.succ_mul]
            omega
      · cases h
        refine ⟨rfl, rfl, ?_, fun h => h, by simp⟩
        dsimp only
        omega

lemma execMain_entries (env : SimEnv) (cfg : ExecConfig) (ordered : List Testnet)
    (ST2 st4 : ExecState) (tr : List Stats) (P : Nat)
    (hP : P = ordered.length * ST2.wallets.length)
    (h : execTestnetLoop env cfg ordered
        { ST2 with stats := ⟨P, 0, 0, 0, 0⟩ } = (st4, tr)) :
    ∀ s ∈ tr, s.completed = s.successful + s.failed + s.skipped ∧
      s.completed ≤ s.totalTasks := by
  obtain ⟨g1, g2, g3, g4, g5⟩ := execTestnetLoop_inv env cfg ordered _ st4 tr h
  intro s hs
  obtain ⟨t1, t2, t3⟩ := g5 s hs
  dsimp only at t1 t2 t3
  refine ⟨t3 rfl, ?_⟩
  rw [t1]
  omega

lemma shuffleArray_state (env : SimEnv) (l : List α) (st : ExecState) :
    (shuffleArray env l st).2.stats = st.stats ∧
    (shuffleArray env l st).2.wallets = st.wallets ∧
    (shuffleArray env l st).1.length = l.length := by
  rw [shuffleArray]
  exact ⟨(shuffleGo_state env _ _ _).2.1, (shuffleGo_state env _ _ _).1,
    shuffleGo_length env _ _ _⟩

/-- C1 (amended): at every observation point of an `executeAll` run —
the statistics reset at the start of the traversal and the state after
each processed wallet unit — the statistics satisfy
`completed = successful + failed + skipped` (where `skipped` is the
ghost count of already-completed wallets taken by the skip branch) and
`completed ≤ totalTasks`.  In particular `successful + failed ≤
completed`, with equality exactly when nothing was skipped. -/
theorem executeAll_stats_invariant (env : SimEnv) (cfg : ExecConfig)
    (tns : List Testnet) (st : ExecState) :
    ∀ s ∈ (executeAll env cfg tns st).2,
      s.completed = s.successful + s.failed + s.skipped ∧
      s.completed ≤ s.totalTasks := by
  intro s hs
  rw [executeAll] at hs
  by_cases hR : st.isRunning = true
  · rw [if_pos hR] at hs
    simp at hs
  · rw [if_neg hR] at hs
    by_cases hW : st.wallets.length = 0
    · rw [if_pos hW] at hs
      simp at hs
      subst hs
      exact ⟨rfl, le_refl 0⟩
    · rw [if_neg hW] at hs
      by_cases hT : tns.length = 0
      · rw [if_pos hT] at hs
        simp at hs
        subst hs
        exact ⟨rfl, le_refl 0⟩
      · rw [if_neg hT] at hs
        by_cases hO : cfg.randomizeOrder = true
        · rw [if_pos hO] at hs
          rcases hSH : shuffleArray env tns
              (⟨st.wallets, ⟨0, 0, 0, 0, 0⟩, true, st.rng, st.polls⟩ : ExecState)
            with ⟨ordered, ST2⟩
          have hss := shuffleArray_state env tns
            (⟨st.wallets, ⟨0, 0, 0, 0, 0⟩, true, st.rng, st.polls⟩ : ExecState)
          rw [hSH] at hss
          dsimp only at hss
          rw [hSH] at hs
          dsimp only at hs
          rw [hss.1] at hs
          dsimp only at hs
          rcases List.mem_cons.mp hs with rfl | hs2
          · exact ⟨rfl, Nat.zero_le _⟩
          · rcases hloop : execTestnetLoop env cfg ordered
                (⟨ST2.wallets, ⟨ordered.length * ST2.wallets.length, 0, 0, 0, 0⟩,
                  ST2.isRunning, ST2.rng, ST2.polls⟩ : ExecState) with ⟨st4, tr⟩
            rw [hloop] at hs2
            dsimp only at hs2
            exact execMain_entries env cfg ordered ST2 st4 tr _ rfl hloop s hs2
        · rw [if_neg hO] at hs
          dsimp only at hs
          rcases List.mem_cons.mp hs with rfl | hs2
          · exact ⟨rfl, Nat.zero_le _⟩
          · rcases hloop : execTestnetLoop env cfg tns
                (⟨st.wallets, ⟨tns.length * st.wallets.length, 0, 0, 0, 0⟩,
                  true, st.rng, st.polls⟩ : ExecState) with ⟨st4, tr⟩
            rw [hloop] at hs2
            dsimp only at hs2
            exact execMain_entries env cfg tns
              (⟨st.wallets, ⟨0, 0, 0, 0, 0⟩, true, st.rng, st.polls⟩ : ExecState)
              st4 tr _ rfl hloop s hs2

/-- C9: at the start of every `executeAll` run (the engine not already
running), `stats.totalTasks` is set to the number of networks times
the number of wallets — independent of how many task kinds each
network lists — and is never updated again: every statistics
observation of the run, and the final statistics, carry exactly that
value. -/
theorem executeAll_totalTasks (env : SimEnv) (cfg : ExecConfig)
    (tns : List Testnet) (st : ExecState) (hrun : st.isRunning = false) :
    (∀ s ∈ (executeAll env cfg tns st).2,
      s.totalTasks = tns.length * st.wallets.length) ∧
    (executeAll env cfg tns st).1.stats.totalTasks
      = tns.length * st.wallets.length := by
  have hR : ¬st.isRunning = true := by simp [hrun]
  rw [executeAll, if_neg hR]
  by_cases hW : st.wallets.length = 0
  · rw [if_pos hW]
    dsimp only
    constructor
    · intro s hs
      simp at hs
      subst hs
      rw [hW, Nat.mul_zero]
    · rw [hW, Nat.mul_zero]
  · rw [if_neg hW]
    by_cases hT : tns.length = 0
    · rw [if_pos hT]
      dsimp only
      constructor
      · intro s hs
        simp at hs
        subst hs
        rw [hT, Nat.zero_mul]
      · rw [hT, Nat.zero_mul]
    · rw [if_neg hT]
      by_cases hO : cfg.randomizeOrder = true
      · rw [if_pos hO]
        rcases hSH : shuffleArray env tns
            (⟨st.wallets, ⟨0, 0, 0, 0, 0⟩, true, st.rng, st.polls⟩ : ExecState)
          with ⟨ordered, ST2⟩
        have hss := shuffleArray_state env tns
          (⟨st.wallets, ⟨0, 0, 0, 0, 0⟩, true, st.rng, st.polls⟩ : ExecState)
        rw [hSH] at hss
        dsimp only at hss
        dsimp only
        rw [hss.1]
        dsimp only
        have hP : ordered.length * ST2.wallets.length
            = tns.length * st.wallets.length := by
          rw [hss.2.1, hss.2.2]
        rcases hloop : execTestnetLoop env cfg ordered
            (⟨ST2.wallets,
              ⟨ordered.length * ST2.wallets.length, 0, 0, 0, 0⟩,
              ST2.isRunning, ST2.rng, ST2.polls⟩ : ExecState) with ⟨st4, tr⟩
        obtain ⟨g1, _g2, _g3, _g4, g5⟩ :=
          execTestnetLoop_inv env cfg ordered _ st4 tr hloop
        dsimp only at g1 g5
        constructor
        · intro s hs
          rcases List.mem_cons.mp hs with rfl | hs2
          · exact hP
          · exact (g5 s hs2).1.trans hP
        · exact g1.trans hP
      · rw [if_neg hO]
        dsimp only
        rcases hloop : execTestnetLoop env cfg tns
            (⟨st.wallets, ⟨tns.length * st.wallets.length, 0, 0, 0, 0⟩,
              true, st.rng, st.polls⟩ : ExecState) with ⟨st4, tr⟩
        obtain ⟨g1, _g2, _g3, _g4, g5⟩ :=
          execTestnetLoop_inv env cfg tns _ st4 tr hloop
        dsimp only at g1 g5
        constructor
        · intro s hs
          rcases List.mem_cons.mp hs with rfl | hs2
          · rfl
          · exact (g5 s hs2).1
        · exact g1

lemma execWalletUnit_skip (env : SimEnv) (cfg : ExecConfig) (tn : Testnet)
    (p : Nat) (st : ExecState)
    (h : ∀ w ∈ st.wallets, tn.name ∈ w.completed) :
    (execWalletUnit env cfg tn p st).wallets = st.wallets ∧
    (execWalletUnit env cfg tn p st).stats.successful = st.stats.successful ∧
    (execWalletUnit env cfg tn p st).stats.failed = st.stats.failed := by
  rw [execWalletUnit]
  split
  · exact ⟨rfl, rfl, rfl⟩
  next w hw =>
    rw [if_pos (h w (List.get?_mem hw))]
    exact ⟨rfl, rfl, rfl⟩

lemma execWalletLoop_skip (env : SimEnv) (cfg : ExecConfig) (tn : Testnet) :
    ∀ (ps : List Nat) (st st2 : ExecState) (tr : List Stats),
      execWalletLoop env cfg tn ps st = (st2, tr) →
      (∀ w ∈ st.wallets, tn.name ∈ w.completed) →
      st2.wallets = st.wallets ∧
      st2.stats.successful = st.stats.successful ∧
      st2.stats.failed = st.stats.failed := by
  intro ps
  induction ps with
  | nil =>
      intro st st2 tr hE _h
      cases hE
      exact ⟨rfl, rfl, rfl⟩
  | cons p rest ih =>
      intro st st2 tr hE h
      rw [execWalletLoop] at hE
      dsimp only [poll] at hE
      split at hE
      · rcases hloop : execWalletLoop env cfg tn rest
            (execWalletUnit env cfg tn p
              ⟨st.wallets, st.stats, st.isRunning && !env.stop st.polls,
               st.rng, st.polls + 1⟩) with ⟨st2x, trx⟩
        rw [hloop] at hE
        cases hE
        obtain ⟨hu1, hu2, hu3⟩ := execWalletUnit_skip env cfg tn p
          ⟨st.wallets, st.stats, st.isRunning && !env.stop st.polls,
           st.rng, st.polls + 1⟩ (by dsimp only; exact h)
        dsimp only at hu1 hu2 hu3
        obtain ⟨hl1, hl2, hl3⟩ := ih _ st2x trx hloop (by rw [hu1]; exact h)
        exact ⟨hl1.trans hu1, hl2.trans hu2, hl3.trans hu3⟩
      · cases hE
        exact ⟨rfl, rfl, rfl⟩

lemma executeTestnet_skip (env : SimEnv) (cfg : ExecConfig) (tn : Testnet)
    (st st2 : ExecState) (tr : List Stats)
    (hE : executeTestnet env cfg tn st = (st2, tr))
    (h : ∀ w ∈ st.wallets, tn.name ∈ w.completed) :
    st2.wallets = st.wallets ∧
    st2.stats.successful = st.stats.successful ∧
    st2.stats.failed = st.stats.failed := by
  rw [executeTestnet] at hE
  dsimp only at hE
  split at hE
  · rw [shuffleArray] at hE
    obtain ⟨hl1, hl2, hl3⟩ := execWalletLoop_skip env cfg tn _ _ st2 tr hE
      (by rw [(shuffleGo_state env _ _ _).1]; exact h)
    rw [(shuffleGo_state env _ _ _).1] at hl1
    rw [(shuffleGo_state env _ _ _).2.1] at hl2 hl3
    exact ⟨hl1, hl2, hl3⟩
  · exact execWalletLoop_skip env cfg tn _ _ st2 tr hE h

lemma execTestnetLoop_skip (env : SimEnv) (cfg : ExecConfig) :
    ∀ (tns : List Testnet) (st st2 : ExecState) (tr : List Stats),
      execTestnetLoop env cfg tns st = (st2, tr) →
      (∀ w ∈ st.wallets, ∀ tn ∈ tns, tn.name ∈ w.completed) →
      st2.wallets = st.wallets ∧
      st2.stats.successful = st.stats.successful ∧
      st2.stats.failed = st.stats.failed := by
  intro tns
  induction tns with
  | nil =>
      intro st st2 tr hE _h
      cases hE
      exact ⟨rfl, rfl, rfl⟩
  | cons tn rest ih =>
      intro st st2 tr hE h
      rw [execTestnetLoop] at hE
      dsimp only [poll] at hE
      split at hE
      · rcases htn : executeTestnet env cfg tn
            ⟨st.wallets, st.stats, st.isRunning && !env.stop st.polls,
             st.rng, st.polls + 1⟩ with ⟨st1, tr1⟩
        rw [htn] at hE
        dsimp only at hE
        rcases hrest : execTestnetLoop env cfg rest
            (if cfg.testnetDelay ≠ 0 ∧ st1.isRunning = true
             then (draw env st1).2 else st1) with ⟨st3, tr2⟩
        rw [hrest] at hE
        cases hE
        obtain ⟨h1, h2, h3⟩ := executeTestnet_skip env cfg tn _ st1 tr1 htn
          (by dsimp only
              intro w hw
              exact h w hw tn (List.mem_cons_self tn rest))
        dsimp only at h1 h2 h3
        have hdel : (if cfg.testnetDelay ≠ 0 ∧ st1.isRunning = true
            then (draw env st1).2 else st1).stats = st1.stats ∧
            (if cfg.testnetDelay ≠ 0 ∧ st1.isRunning = true
            then (draw env st1).2 else st1).wallets = st1.wallets := by
          split_ifs <;> exact ⟨rfl, rfl⟩
        obtain ⟨g1, g2, g3⟩ := ih _ st3 tr2 hrest
          (by rw [hdel.2, h1]
              intro w hw tn2 htn2
              exact h w hw tn2 (List.mem_cons_of_mem tn htn2))
        rw [hdel.2] at g1
        rw [hdel.1] at g2 g3
        exact ⟨g1.trans h1, g2.trans h2, g3.trans h3⟩
      · cases hE
        exact ⟨rfl, rfl, rfl⟩

/-- C8 (amended): when, at the start of a run, every wallet already
lists every network of the list in `completedTasks` — as is the case
for a second run over the same networks and wallets after a first run
in which every (network, wallet) unit succeeded — `executeAll`
produces zero successful and zero failed increments: every unit takes
the skip branch. -/
theorem executeAll_idempotent_when_all_completed (env : SimEnv)
    (cfg : ExecConfig) (tns : List Testnet) (st : ExecState)
    (hrun : st.isRunning = false)
    (hall : ∀ w ∈ st.wallets, ∀ tn ∈ tns, tn.name ∈ w.completed) :
    (executeAll env cfg tns st).1.stats.successful = 0 ∧
    (executeAll env cfg tns st).1.stats.failed = 0 := by
  have hR : ¬st.isRunning = true := by simp [hrun]
  rw [executeAll, if_neg hR]
  by_cases hW : st.wallets.length = 0
  · rw [if_pos hW]
    exact ⟨rfl, rfl⟩
  · rw [if_neg hW]
    by_cases hT : tns.length = 0
    · rw [if_pos hT]
      exact ⟨rfl, rfl⟩
    · rw [if_neg hT]
      by_cases hO : cfg.randomizeOrder = true
      · rw [if_pos hO]
        rcases hSH : shuffleArray env tns
            (⟨st.wallets, ⟨0, 0, 0, 0, 0⟩, true, st.rng, st.polls⟩ : ExecState)
          with ⟨ordered, ST2⟩
        have hss := shuffleArray_state env tns
          (⟨st.wallets, ⟨0, 0, 0, 0, 0⟩, true, st.rng, st.polls⟩ : ExecState)
        rw [hSH] at hss
        dsimp only at hss
        have hmem : ∀ x ∈ ordered, x ∈ tns := by
          intro x hx
          have := shuffleGo_mem env (tns.length - 1) tns
            (⟨st.wallets, ⟨0, 0, 0, 0, 0⟩, true, st.rng, st.polls⟩ : ExecState) x
          rw [show shuffleGo env tns (tns.length - 1)
              (⟨st.wallets, ⟨0, 0, 0, 0, 0⟩, true, st.rng, st.polls⟩ : ExecState)
              = (ordered, ST2) from hSH] at this
          exact this hx
        dsimp only
        rw [hss.1]
        dsimp only
        rcases hloop : execTestnetLoop env cfg ordered
            (⟨ST2.wallets, ⟨ordered.length * ST2.wallets.length, 0, 0, 0, 0⟩,
              ST2.isRunning, ST2.rng, ST2.polls⟩ : ExecState) with ⟨st4, tr⟩
        obtain ⟨_g1, g2, g3⟩ := execTestnetLoop_skip env cfg ordered _ st4 tr hloop
          (by dsimp only
              rw [hss.2.1]
              intro w hw tn2 htn2
              exact hall w hw tn2 (hmem tn2 htn2))
        dsimp only at g2 g3
        exact ⟨g2, g3⟩
      · rw [if_neg hO]
        dsimp only
        rcases hloop : execTestnetLoop env cfg tns
            (⟨st.wallets, ⟨tns.length * st.wallets.length, 0, 0, 0, 0⟩,
              true, st.rng, st.polls⟩ : ExecState) with ⟨st4, tr⟩
        obtain ⟨_g1, g2, g3⟩ := execTestnetLoop_skip env cfg tns _ st4 tr hloop
          (by dsimp only; exact hall)
        dsimp only at g2 g3
        exact ⟨g2, g3⟩

/-- The default executor configuration: nothing randomized, no
inter-unit delays. -/
def cfg0 : ExecConfig := ⟨false, false, 0, 0⟩

/-- A network with no task list (the executor falls back to
`['custom']`). -/
def tnX : Testnet := ⟨"t1", "ethereum", none⟩

/-- One fresh wallet (nothing completed), executor idle. -/
def stX : ExecState := ⟨[walletC3], ⟨0, 0, 0, 0, 0⟩, false, 0, 0⟩

/-- One wallet that already completed network `t1`, executor idle. -/
def stDone : ExecState :=
  ⟨[{ walletC3 with completed := ["t1"] }], ⟨0, 0, 0, 0, 0⟩, false, 0, 0⟩

/-- C1 (counterexample): a run over one network and one wallet that
already lists that network skips the wallet, incrementing `completed`
but neither `successful` nor `failed` — so after the run `completed =
1` while `successful + failed = 0`, violating
`completed == successful + failed`. -/
theorem executeAll_stats_skip_counterexample :
    (executeAll envZeroS cfg0 [tnX] stDone).1.stats.completed = 1 ∧
    (executeAll envZeroS cfg0 [tnX] stDone).1.stats.successful +
      (executeAll envZeroS cfg0 [tnX] stDone).1.stats.failed = 0 := by
  decide

/-- C1 (witness for the amended theorem): the reset statistics of a
concrete run with an empty network list satisfy the amended
invariant. -/
theorem executeAll_stats_invariant_witness :
    (⟨0, 0, 0, 0, 0⟩ : Stats).completed
      = (⟨0, 0, 0, 0, 0⟩ : Stats).successful + (⟨0, 0, 0, 0, 0⟩ : Stats).failed
        + (⟨0, 0, 0, 0, 0⟩ : Stats).skipped ∧
    (⟨0, 0, 0, 0, 0⟩ : Stats).completed ≤ (⟨0, 0, 0, 0, 0⟩ : Stats).totalTasks :=
  executeAll_stats_invariant envZeroS cfg0 [] stX ⟨0, 0, 0, 0, 0⟩ (by decide)

/-- C9 (witness): a concrete one-network, one-wallet run sets and
keeps `totalTasks = 1 * 1`. -/
theorem executeAll_totalTasks_witness :
    (executeAll envZeroS cfg0 [tnX] stX).1.stats.totalTasks
      = [tnX].length * stX.wallets.length :=
  (executeAll_totalTasks envZeroS cfg0 [tnX] stX rfl).2

/-- C8 (counterexample): the claim fails without the all-completed
premise.  With the all-zero draw stream, the single custom task fails
(`0 > 0.2` is false) in the first run, so the wallet is never marked
completed; the second run over the same network and wallets therefore
re-attempts it and produces another failed increment — not zero. -/
theorem executeAll_second_run_counterexample :
    (executeAll envZeroS cfg0 [tnX]
        (executeAll envZeroS cfg0 [tnX] stX).1).1.stats.failed = 1 ∧
    (executeAll envZeroS cfg0 [tnX]
        (executeAll envZeroS cfg0 [tnX] stX).1).1.stats.successful = 0 := by
  norm_num +decide [executeAll, execTestnetLoop, executeTestnet, shuffleArray,
    execWalletLoop, execWalletUnit, walletPause, executeWalletTasks,
    executeTask, taskThreshold, taskError, poll, draw,
    markTestnetCompleted, envZeroS, cfg0, tnX, stX, walletC3]

/-- C8 (witness for the amended theorem): a second-run state whose
wallet already lists the network produces zero successful and zero
failed increments. -/
theorem executeAll_idempotent_when_all_completed_witness :
    (executeAll envZeroS cfg0 [tnX] stDone).1.stats.successful = 0 ∧
    (executeAll envZeroS cfg0 [tnX] stDone).1.stats.failed = 0 :=
  executeAll_idempotent_when_all_completed envZeroS cfg0 [tnX] stDone rfl
    (by decide)
